import Mathlib

/-!
Shallow embedding of the salvo excerpt:
the OpenSSL hot-reloading TLS listener (crates/core/src/conn/openssl/listener.rs)
and the static-serving URL path normalizer (extra/src/serve_static/mod.rs),
with theorems settling the behavioural claims about them.
-/

set_option maxHeartbeats 1000000

/-! ## Part 1: the dynamic TLS listener

The listener owns a config stream, an inner transport acceptor and the single
mutable slot `tls_acceptor : Option (Arc SslAcceptor)`.  A validated TLS
server context is reference counted and shared; we identify each built
context by a natural number (the identity of the `Arc` allocated by
`Arc::new(builder.build())`).  The two external event sources raced by
`tokio::select!` inside `accept()` are modelled as one interleaved list of
ready events, in the order the select loop observes them.
-/

/-- Modelled from the spec: `OpensslConfig` (not part of the excerpt) is an
opaque immutable snapshot (cert chain, key, ALPN, verify mode).  For the
listener only two aspects matter: whether validation succeeds, and the
identity of the context built from it.  -/
structure OpensslConfig where
  valid : Bool
  ctxId : Nat
deriving DecidableEq, Repr

/-- Modelled from the spec: `create_acceptor_builder` (defined on
`OpensslConfig`, outside the excerpt) validates one snapshot into a TLS
server context; pure and side-effect free beyond validation.  -/
def OpensslConfig.create_acceptor_builder (c : OpensslConfig) : Except String Nat :=
  if c.valid then .ok c.ctxId else .error "invalid openssl config"

/-- `Accepted` record from `crate::conn`: stream plus local and remote
addresses (addresses abstracted as numbers).  -/
structure Accepted (Conn : Type) where
  stream : Conn
  local_addr : Nat
  remote_addr : Nat
deriving DecidableEq, Repr

/-- A raw connection yielded by the inner transport acceptor; its stream is
abstracted as a number. -/
abbrev RawAccepted := Accepted Nat

/-- Modelled from the spec: `TlsConnStream` (in `crate::conn`, not part of
the excerpt) wraps the deferred handshake future built by `accept()`.  The
future captured the cloned context reference and the raw stream; `handshaken`
records whether the future has been driven yet.  -/
structure TlsConnStream where
  ctx : Nat
  raw : Nat
  handshaken : Bool
deriving DecidableEq, Repr

/-- Modelled from the spec: `TlsConnStream::new` wraps a pending handshake
future without polling it, so the negotiation has not run on return.  -/
def TlsConnStream.new (ctx raw : Nat) : TlsConnStream :=
  ⟨ctx, raw, false⟩

/-- Modelled from the spec: the first read or write on the wrapper drives the
handshake to completion using the context the future captured; it returns the
driven stream together with the context identity the negotiation used.  -/
def TlsConnStream.firstUse (s : TlsConnStream) : TlsConnStream × Nat :=
  ({ s with handshaken := true }, s.ctx)

/-- The `OpensslListener` state: config stream handle, inner transport
acceptor handle, and the single mutable `tls_acceptor` slot.  -/
structure OpensslListener where
  config_stream : Nat
  inner : Nat
  tls_acceptor : Option Nat
deriving DecidableEq, Repr

instance : DecidableEq (Except String RawAccepted) := fun a b =>
  match a, b with
  | .ok x, .ok y =>
    if h : x = y then isTrue (by rw [h]) else isFalse (fun hh => h (Except.ok.inj hh))
  | .error x, .error y =>
    if h : x = y then isTrue (by rw [h]) else isFalse (fun hh => h (Except.error.inj hh))
  | .ok _, .error _ => isFalse Except.noConfusion
  | .error _, .ok _ => isFalse Except.noConfusion

/-- One ready event observed by the `tokio::select!` inside `accept()`:
either `config_stream.next()` completed (with `none` meaning the stream
ended), or `inner.accept()` completed (with a transport error message or a
raw accepted connection).  -/
inductive Event where
  | config : Option OpensslConfig → Event
  | conn : Except String RawAccepted → Event
deriving DecidableEq, Repr

/-- Errors `accept()` can return, tagged by construction site: the mapped
transport failure message, or the missing-configuration error.  -/
inductive AcceptError where
  | transport : String → AcceptError
  | noTlsConfig : AcceptError
deriving DecidableEq, Repr

/-- The message carried by the `IoError` built at each error site.  -/
def AcceptError.message : AcceptError → String
  | .transport m => m
  | .noTlsConfig => "no valid tls config."

/-- Outcome of one iteration of the `accept()` loop once an event fires:
return a wrapped connection, return an error, or hit the `unreachable!()`
panic.  `none` in `acceptStep` means the loop continues.  -/
inductive AcceptResult where
  | ok : Accepted TlsConnStream → AcceptResult
  | err : AcceptError → AcceptResult
  | panicked : AcceptResult
deriving DecidableEq, Repr

/-- One iteration of the `loop { tokio::select! { ... } }` in
`OpensslListener::accept`, given the event that fired.  Returns the updated
listener and `none` to keep looping or `some r` when the call finishes.  -/
def acceptStep (l : OpensslListener) (e : Event) : OpensslListener × Option AcceptResult :=
  match e with
  | .config (some tls_config) =>
    match tls_config.create_acceptor_builder with
    | .ok builder => ({ l with tls_acceptor := some builder }, none)
    | .error _ => (l, none)
  | .config none => (l, some .panicked)
  | .conn (.error e) => (l, some (.err (.transport e)))
  | .conn (.ok r) =>
    match l.tls_acceptor with
    | some tls_acceptor =>
      (l, some (.ok ⟨TlsConnStream.new tls_acceptor r.stream, r.local_addr, r.remote_addr⟩))
    | none => (l, some (.err .noTlsConfig))

/-- `OpensslListener::accept` driven by the list of events that become ready,
in order.  Returns the final listener state and the result of the call, or
`none` when the event list is exhausted while the loop is still waiting.  -/
def accept (l : OpensslListener) : List Event → OpensslListener × Option AcceptResult
  | [] => (l, none)
  | e :: es =>
    match acceptStep l e with
    | (l', none) => accept l' es
    | (l', some r) => (l', some r)

/-- `OpensslListener::try_bind`: bind the inner TCP listener, create the
config stream, and start with `tls_acceptor = None`.  The two external
fallible calls (`TcpListener::try_bind` and `config.into_stream()`) are
abstracted by their outcomes, tried in source order.  -/
def try_bind (tcp : Except String Nat) (intoStream : Except String Nat) :
    Except String OpensslListener :=
  match tcp with
  | .error e => .error e
  | .ok inner =>
    match intoStream with
    | .error e => .error e
    | .ok config_stream => .ok ⟨config_stream, inner, none⟩

/-- `OpensslListener::bind`: `try_bind(config, addr).await.unwrap()`; the
panic of `unwrap` on an error is modelled as `none`.  -/
def bind (tcp : Except String Nat) (intoStream : Except String Nat) :
    Option OpensslListener :=
  match try_bind tcp intoStream with
  | .ok l => some l
  | .error _ => none

/-! ## Part 2: URL path normalization (`format_url_path_safely`)

Rust `&str` values are embedded as `List Char`.  Rust `str::split` with a
pattern `['/', '\\']` splits on either character, keeping empty pieces, and
yields one (empty) piece for the empty string; `splitChars` mirrors that.
-/

/-- The split pattern `['/', '\\']` used by `format_url_path_safely`.  -/
def isPathSep (c : Char) : Bool :=
  c = '/' || c = '\\'

/-- Rust `str::split` on a character predicate: the empty string yields one
empty piece, and every separator occurrence starts a new piece; separators
are dropped and empty pieces kept.  This is `List.splitOnP`.  -/
def splitChars (sep : Char → Bool) (s : List Char) : List (List Char) :=
  s.splitOnP sep

/-- The body of the fold over path parts in `format_url_path_safely`: drop
empty and `.` parts, let `..` pop the most recently kept part, keep the
rest.  -/
def formatPart (acc : List (List Char)) (part : List Char) : List (List Char) :=
  if part = [] ∨ part = ['.'] then acc
  else if part = ['.', '.'] then acc.dropLast
  else acc ++ [part]

/-- `format_url_path_safely` from `extra/src/serve_static/mod.rs`: split on
`/` and `\`, filter and resolve dot segments into `used_parts`, then join
with `/`.  -/
def format_url_path_safely (path : List Char) : List Char :=
  let used_parts := (splitChars isPathSep path).foldl formatPart []
  List.intercalate ['/'] used_parts

/-! ## Theorems about the listener -/

/-- C1: a connection event processed while `tls_acceptor` is still `None`
(no snapshot has ever validated) makes `accept()` return at once with the
configuration-missing error, leaving the listener unchanged; no connection
is returned and no further event is consumed.  -/
theorem accept_no_config_fails (l : OpensslListener) (r : RawAccepted)
    (es tail : List Event) (h : l.tls_acceptor = none)
    (hes : ∀ e ∈ es, ∃ c msg, e = Event.config (some c) ∧
      c.create_acceptor_builder = Except.error msg) :
    accept l (es ++ Event.conn (Except.ok r) :: tail) =
      (l, some (AcceptResult.err AcceptError.noTlsConfig)) ∧
    AcceptError.noTlsConfig.message = "no valid tls config." := by
  refine ⟨?_, rfl⟩
  induction es generalizing l with
  | nil => simp [accept, acceptStep, h]
  | cons e es ih =>
    obtain ⟨c, msg, rfl, hc⟩ := hes e (by simp)
    simpa [accept, acceptStep, hc] using
      ih l h (fun e he => hes e (List.mem_cons_of_mem _ he))

theorem accept_no_config_fails_witness :
    accept ⟨0, 0, none⟩
        [Event.config (some ⟨false, 5⟩), Event.conn (Except.ok ⟨1, 2, 3⟩)] =
      (⟨0, 0, none⟩, some (AcceptResult.err AcceptError.noTlsConfig)) ∧
    AcceptError.noTlsConfig.message = "no valid tls config." :=
  accept_no_config_fails ⟨0, 0, none⟩ ⟨1, 2, 3⟩ [Event.config (some ⟨false, 5⟩)] [] rfl
    (fun e he =>
      ⟨⟨false, 5⟩, "invalid openssl config", by simpa using he, rfl⟩)

/-- C2: the handshake future returned by `accept()` captures the context
that is current at the moment of acceptance.  After installs A then B, the
first connection is bound to the context built from A and the second to the
one built from B, and driving the first handshake after B was installed
still uses the context from A.  -/
theorem handshake_bound_to_acceptance_context (l : OpensslListener)
    (a b : OpensslConfig) (ha : a.valid = true) (hb : b.valid = true)
    (r₁ r₂ : RawAccepted) :
    accept l [Event.config (some a), Event.conn (Except.ok r₁)] =
      ({ l with tls_acceptor := some a.ctxId },
        some (AcceptResult.ok
          ⟨TlsConnStream.new a.ctxId r₁.stream, r₁.local_addr, r₁.remote_addr⟩)) ∧
    accept { l with tls_acceptor := some a.ctxId }
        [Event.config (some b), Event.conn (Except.ok r₂)] =
      ({ l with tls_acceptor := some b.ctxId },
        some (AcceptResult.ok
          ⟨TlsConnStream.new b.ctxId r₂.stream, r₂.local_addr, r₂.remote_addr⟩)) ∧
    (TlsConnStream.new a.ctxId r₁.stream).firstUse.2 = a.ctxId := by
  refine ⟨?_, ?_, rfl⟩ <;>
    simp [accept, acceptStep, OpensslConfig.create_acceptor_builder, ha, hb,
      TlsConnStream.new]

theorem handshake_bound_to_acceptance_context_witness :
    (TlsConnStream.new (OpensslConfig.mk true 1).ctxId 7).firstUse.2 =
      (OpensslConfig.mk true 1).ctxId :=
  (handshake_bound_to_acceptance_context ⟨0, 0, none⟩ ⟨true, 1⟩ ⟨true, 2⟩ rfl rfl
    ⟨7, 8, 9⟩ ⟨4, 5, 6⟩).2.2

/-- C3: a snapshot whose validation fails leaves `tls_acceptor` exactly as
it was and the loop continues; processing the failed config event is a
no-op for the rest of the call.  -/
theorem invalid_config_retains_acceptor (l : OpensslListener) (c : OpensslConfig)
    (msg : String) (h : c.create_acceptor_builder = Except.error msg)
    (es : List Event) :
    acceptStep l (Event.config (some c)) = (l, none) ∧
    accept l (Event.config (some c) :: es) = accept l es := by
  constructor
  · simp [acceptStep, h]
  · simp [accept, acceptStep, h]

theorem invalid_config_retains_acceptor_witness :
    acceptStep ⟨0, 0, some 4⟩ (Event.config (some ⟨false, 9⟩)) =
      (⟨0, 0, some 4⟩, none) :=
  (invalid_config_retains_acceptor ⟨0, 0, some 4⟩ ⟨false, 9⟩
    "invalid openssl config" rfl []).1

/-- C5: with a context installed, a connection event makes `accept()` wrap
the not-yet-driven handshake future in `TlsConnStream` and return it with
the addresses; the wrapper is not handshaken when returned, and its first
use drives the handshake using the captured context.  -/
theorem accept_defers_handshake (l : OpensslListener) (a : Nat)
    (h : l.tls_acceptor = some a) (r : RawAccepted) :
    acceptStep l (Event.conn (Except.ok r)) =
      (l, some (AcceptResult.ok
        ⟨TlsConnStream.new a r.stream, r.local_addr, r.remote_addr⟩)) ∧
    (TlsConnStream.new a r.stream).handshaken = false ∧
    (TlsConnStream.new a r.stream).firstUse.1.handshaken = true ∧
    (TlsConnStream.new a r.stream).firstUse.2 = a := by
  refine ⟨?_, rfl, rfl, rfl⟩
  simp [acceptStep, h]

theorem accept_defers_handshake_witness :
    acceptStep ⟨0, 0, some 3⟩ (Event.conn (Except.ok ⟨1, 2, 3⟩)) =
      (⟨0, 0, some 3⟩, some (AcceptResult.ok
        ⟨TlsConnStream.new 3 1, 2, 3⟩)) :=
  (accept_defers_handshake ⟨0, 0, some 3⟩ 3 rfl ⟨1, 2, 3⟩).1

/-- C6: once `tls_acceptor` is `some`, no event ever resets it to `none`,
and no later connection event can see the configuration-missing error.  -/
theorem configured_is_absorbing (l : OpensslListener) (es : List Event)
    (h : l.tls_acceptor.isSome) :
    (accept l es).1.tls_acceptor.isSome ∧
    (accept l es).2 ≠ some (AcceptResult.err AcceptError.noTlsConfig) := by
  induction es generalizing l with
  | nil => exact ⟨h, by simp [accept]⟩
  | cons e es ih =>
    cases e with
    | config oc =>
      cases oc with
      | none => exact ⟨by simpa [accept, acceptStep] using h, by simp [accept, acceptStep]⟩
      | some c =>
        cases hc : c.create_acceptor_builder with
        | ok b =>
          simpa [accept, acceptStep, hc] using ih { l with tls_acceptor := some b } rfl
        | error m =>
          simpa [accept, acceptStep, hc] using ih l h
    | conn cr =>
      cases cr with
      | error m => exact ⟨by simpa [accept, acceptStep] using h, by simp [accept, acceptStep]⟩
      | ok rr =>
        obtain ⟨a, ha⟩ := Option.isSome_iff_exists.mp h
        exact ⟨by simp [accept, acceptStep, ha], by simp [accept, acceptStep, ha]⟩

theorem configured_is_absorbing_witness :
    (accept ⟨0, 0, some 1⟩ [Event.conn (Except.ok ⟨1, 2, 3⟩)]).1.tls_acceptor.isSome :=
  (configured_is_absorbing ⟨0, 0, some 1⟩ [Event.conn (Except.ok ⟨1, 2, 3⟩)] rfl).1

/-- C7: if the config stream never ends (no `Event.config none` occurs),
the `unreachable!()` branch is never executed; without that precondition, a
terminating config stream makes the loop panic on the spot, retaining
nothing.  -/
theorem config_stream_end_is_unreachable (l : OpensslListener) (es : List Event)
    (h : ∀ e ∈ es, e ≠ Event.config none) :
    (accept l es).2 ≠ some AcceptResult.panicked ∧
    ∀ l' : OpensslListener,
      acceptStep l' (Event.config none) = (l', some AcceptResult.panicked) := by
  refine ⟨?_, fun l' => rfl⟩
  induction es generalizing l with
  | nil => simp [accept]
  | cons e es ih =>
    cases e with
    | config oc =>
      cases oc with
      | none => exact absurd rfl (h _ (List.mem_cons_self _ _))
      | some c =>
        cases hc : c.create_acceptor_builder with
        | ok b =>
          simpa [accept, acceptStep, hc] using
            ih { l with tls_acceptor := some b } (fun e he => h e (List.mem_cons_of_mem _ he))
        | error m =>
          simpa [accept, acceptStep, hc] using
            ih l (fun e he => h e (List.mem_cons_of_mem _ he))
    | conn cr =>
      cases cr with
      | error m => simp [accept, acceptStep]
      | ok rr =>
        cases ha : l.tls_acceptor <;> simp [accept, acceptStep, ha]

theorem config_stream_end_is_unreachable_witness :
    (accept ⟨0, 0, none⟩ [Event.conn (Except.error "x")]).2 ≠
      some AcceptResult.panicked :=
  (config_stream_end_is_unreachable ⟨0, 0, none⟩ [Event.conn (Except.error "x")]
    (by decide)).1

/-- C9: `bind` is `try_bind` followed by `unwrap`: an `Ok` from `try_bind`
is returned as is (inner transport bound, config stream created,
`tls_acceptor` starting as `None`), and either failure — socket bind or
config-stream creation — makes `bind` panic (modelled by `none`) instead of
returning the error.  -/
theorem bind_unwraps_try_bind :
    (∀ tcp intoStream : Except String Nat,
        bind tcp intoStream = (try_bind tcp intoStream).toOption) ∧
    (∀ inner config_stream : Nat,
        try_bind (Except.ok inner) (Except.ok config_stream) =
          Except.ok ⟨config_stream, inner, none⟩) ∧
    (∀ (e : String) (s : Except String Nat),
        try_bind (Except.error e) s = Except.error e) ∧
    (∀ (inner : Nat) (e : String),
        try_bind (Except.ok inner) (Except.error e) = Except.error e) := by
  refine ⟨fun tcp s => ?_, fun _ _ => rfl, fun _ _ => rfl, fun _ _ => rfl⟩
  cases tcp <;> cases s <;> rfl

/-- C4: a finished `accept()` call only ever returns the two error kinds
built at the connection branch (mapped transport failure, missing config),
any returned connection has an undriven handshake, and every non-panic
return was produced by a connection event — config events alone never make
`accept()` return.  -/
theorem accept_error_provenance (l l' : OpensslListener) (es : List Event)
    (r : AcceptResult) (h : accept l es = (l', some r)) :
    (∀ e, r = AcceptResult.err e →
      e = AcceptError.noTlsConfig ∨ ∃ m, e = AcceptError.transport m) ∧
    (∀ acc, r = AcceptResult.ok acc → acc.stream.handshaken = false) ∧
    (r ≠ AcceptResult.panicked → ∃ es₁ cr es₂, es = es₁ ++ Event.conn cr :: es₂) := by
  induction es generalizing l with
  | nil => simp [accept] at h
  | cons e es ih =>
    cases e with
    | config oc =>
      cases oc with
      | none =>
        simp [accept, acceptStep] at h
        obtain ⟨rfl, rfl⟩ := h
        exact ⟨fun e he => by simp at he, fun acc hacc => by simp at hacc,
          fun hp => absurd rfl hp⟩
      | some c =>
        cases hc : c.create_acceptor_builder with
        | ok b =>
          have hstep : accept l (Event.config (some c) :: es) =
              accept { l with tls_acceptor := some b } es := by
            simp [accept, acceptStep, hc]
          rw [hstep] at h
          obtain ⟨h1, h2, h3⟩ := ih _ h
          refine ⟨h1, h2, fun hp => ?_⟩
          obtain ⟨es₁, cr, es₂, rfl⟩ := h3 hp
          exact ⟨Event.config (some c) :: es₁, cr, es₂, rfl⟩
        | error m =>
          have hstep : accept l (Event.config (some c) :: es) = accept l es := by
            simp [accept, acceptStep, hc]
          rw [hstep] at h
          obtain ⟨h1, h2, h3⟩ := ih _ h
          refine ⟨h1, h2, fun hp => ?_⟩
          obtain ⟨es₁, cr, es₂, rfl⟩ := h3 hp
          exact ⟨Event.config (some c) :: es₁, cr, es₂, rfl⟩
    | conn cr =>
      cases cr with
      | error m =>
        simp [accept, acceptStep] at h
        obtain ⟨rfl, rfl⟩ := h
        exact ⟨fun e he => Or.inr ⟨m, (AcceptResult.err.inj he).symm⟩,
          fun acc hacc => by simp at hacc,
          fun _ => ⟨[], Except.error m, es, rfl⟩⟩
      | ok rr =>
        cases ha : l.tls_acceptor with
        | some a =>
          simp [accept, acceptStep, ha] at h
          obtain ⟨rfl, rfl⟩ := h
          refine ⟨fun e he => by simp at he, fun acc hacc => ?_,
            fun _ => ⟨[], Except.ok rr, es, rfl⟩⟩
          obtain rfl := AcceptResult.ok.inj hacc
          rfl
        | none =>
          simp [accept, acceptStep, ha] at h
          obtain ⟨rfl, rfl⟩ := h
          exact ⟨fun e he => Or.inl (AcceptResult.err.inj he).symm,
            fun acc hacc => by simp at hacc,
            fun _ => ⟨[], Except.ok rr, es, rfl⟩⟩

theorem accept_error_provenance_witness :
    ∃ es₁ cr es₂, [Event.conn (Except.error "boom")] = es₁ ++ Event.conn cr :: es₂ :=
  (accept_error_provenance ⟨0, 0, none⟩ ⟨0, 0, none⟩ [Event.conn (Except.error "boom")]
    (AcceptResult.err (AcceptError.transport "boom")) rfl).2.2 (by simp)
/-- A part kept in `used_parts`: nonempty, not a dot segment, and free of
both separator characters.  -/
def GoodPart (p : List Char) : Prop :=
  p ≠ [] ∧ p ≠ ['.'] ∧ p ≠ ['.', '.'] ∧ ∀ c ∈ p, isPathSep c = false

theorem splitChars_parts_no_sep (sep : Char → Bool) (s : List Char) :
    ∀ p ∈ splitChars sep s, ∀ c ∈ p, sep c = false := by
  unfold splitChars
  induction s with
  | nil =>
    intro p hp c hc
    simp only [List.splitOnP_nil, List.mem_singleton] at hp
    subst hp
    simp at hc
  | cons a as ih =>
    intro p hp c hc
    rw [List.splitOnP_cons] at hp
    by_cases hsa : sep a
    · rw [if_pos hsa] at hp
      rcases List.mem_cons.mp hp with h | h
      · subst h; simp at hc
      · exact ih p h c hc
    · rw [if_neg hsa] at hp
      cases hq : as.splitOnP sep with
      | nil => exact absurd hq (List.splitOnP_ne_nil _ _)
      | cons q qs =>
        rw [hq] at hp
        simp only [List.modifyHead] at hp
        rcases List.mem_cons.mp hp with h | h
        · subst h
          rcases List.mem_cons.mp hc with h' | h'
          · subst h'
            exact Bool.eq_false_iff.mpr hsa
          · exact ih q (by rw [hq]; exact List.mem_cons_self _ _) c h'
        · exact ih p (by rw [hq]; exact List.mem_cons_of_mem _ h) c hc

theorem splitChars_intercalate (sep : Char → Bool) (hsep : sep '/' = true)
    (ls : List (List Char)) (hls : ls ≠ [])
    (h : ∀ l ∈ ls, ∀ c ∈ l, sep c = false) :
    splitChars sep (List.intercalate ['/'] ls) = ls := by
  unfold splitChars
  induction ls with
  | nil => exact absurd rfl hls
  | cons x xs ih =>
    cases xs with
    | nil =>
      have h1 : List.intercalate ['/'] [x] = x := by
        simp [List.intercalate]
      rw [h1]
      exact List.splitOnP_eq_single _ _
        (fun c hc => by simp [h x (List.mem_singleton_self x) c hc])
    | cons y ys =>
      have h1 : List.intercalate ['/'] (x :: y :: ys) =
          x ++ '/' :: List.intercalate ['/'] (y :: ys) := by
        simp [List.intercalate, List.intersperse_cons_cons]
      rw [h1, List.splitOnP_first _ _
        (fun c hc => by simp [h x (List.mem_cons_self _ _) c hc]) '/' hsep]
      rw [ih (by simp) (fun l hl c hc => h l (List.mem_cons_of_mem _ hl) c hc)]

theorem foldl_formatPart_good (parts : List (List Char)) :
    ∀ acc, (∀ p ∈ parts, ∀ c ∈ p, isPathSep c = false) →
      (∀ p ∈ acc, GoodPart p) →
      ∀ p ∈ parts.foldl formatPart acc, GoodPart p := by
  induction parts with
  | nil =>
    intro acc _ hacc p hp
    exact hacc p hp
  | cons q qs ih =>
    intro acc hparts hacc p hp
    rw [List.foldl_cons] at hp
    refine ih (formatPart acc q)
      (fun p' hp' => hparts p' (List.mem_cons_of_mem _ hp')) ?_ p hp
    intro p' hp'
    unfold formatPart at hp'
    by_cases h1 : q = [] ∨ q = ['.']
    · rw [if_pos h1] at hp'
      exact hacc p' hp'
    · rw [if_neg h1] at hp'
      by_cases h2 : q = ['.', '.']
      · rw [if_pos h2] at hp'
        exact hacc p' (List.dropLast_subset _ hp')
      · rw [if_neg h2] at hp'
        rcases List.mem_append.mp hp' with h | h
        · exact hacc p' h
        · rw [List.mem_singleton.mp h]
          push_neg at h1
          exact ⟨h1.1, h1.2, h2, fun c hc => hparts q (List.mem_cons_self _ _) c hc⟩

theorem foldl_formatPart_of_good (parts : List (List Char)) :
    ∀ acc, (∀ p ∈ parts, GoodPart p) →
      parts.foldl formatPart acc = acc ++ parts := by
  induction parts with
  | nil => intro acc _; simp
  | cons q qs ih =>
    intro acc h
    obtain ⟨h1, h2, h3, _⟩ := h q (List.mem_cons_self _ _)
    rw [List.foldl_cons]
    have hq : formatPart acc q = acc ++ [q] := by
      unfold formatPart
      rw [if_neg (not_or.mpr ⟨h1, h2⟩), if_neg h3]
    rw [hq, ih (acc ++ [q]) (fun p hp => h p (List.mem_cons_of_mem _ hp))]
    simp

theorem format_components_no_dots (p : List Char) :
    (format_url_path_safely p = [] ∧
      splitChars (fun c => c = '/') (format_url_path_safely p) = [[]]) ∨
    ∀ q ∈ splitChars (fun c => c = '/') (format_url_path_safely p),
      q ≠ [] ∧ q ≠ ['.'] ∧ q ≠ ['.', '.'] := by
  have hfmt : format_url_path_safely p =
      List.intercalate ['/'] ((splitChars isPathSep p).foldl formatPart []) := rfl
  have hgood : ∀ q ∈ (splitChars isPathSep p).foldl formatPart [], GoodPart q :=
    foldl_formatPart_good _ [] (splitChars_parts_no_sep isPathSep p) (by simp)
  cases hu : (splitChars isPathSep p).foldl formatPart [] with
  | nil =>
    left
    rw [hfmt, hu]
    exact ⟨by simp [List.intercalate], by simp [List.intercalate, splitChars]⟩
  | cons u us =>
    right
    intro q hq
    rw [hfmt, hu] at hq
    rw [splitChars_intercalate (fun c => c = '/') (by simp) (u :: us) (by simp)
      (fun l hl c hc => by
        have hns := (hgood l (by rw [hu]; exact hl)).2.2.2 c hc
        simp only [isPathSep, Bool.or_eq_false_iff] at hns
        simpa using hns.1)] at hq
    have := hgood q (by rw [hu]; exact hq)
    exact ⟨this.1, this.2.1, this.2.2.1⟩

theorem format_components_counterexample :
    ¬ (∀ q ∈ splitChars (fun c => c = '/') (format_url_path_safely ['.', '.']),
        q ≠ [] ∧ q ≠ ['.'] ∧ q ≠ ['.', '.']) := by decide

theorem format_url_path_safely_idempotent (p : List Char) :
    format_url_path_safely (format_url_path_safely p) = format_url_path_safely p := by
  have key : ∀ used : List (List Char), (∀ q ∈ used, GoodPart q) →
      format_url_path_safely (List.intercalate ['/'] used) =
        List.intercalate ['/'] used := by
    intro used hgood
    cases hu : used with
    | nil => rfl
    | cons u us =>
      subst hu
      unfold format_url_path_safely
      rw [splitChars_intercalate isPathSep (by simp [isPathSep]) (u :: us) (by simp)
        (fun l hl c hc => (hgood l hl).2.2.2 c hc)]
      rw [foldl_formatPart_of_good (u :: us) [] hgood]
      simp
  exact key _ (foldl_formatPart_good _ [] (splitChars_parts_no_sep isPathSep p) (by simp))

theorem format_components_no_dots_witness :
    (format_url_path_safely ['a', '/', '.', '.'] = [] ∧
      splitChars (fun c => c = '/') (format_url_path_safely ['a', '/', '.', '.']) = [[]]) ∨
    ∀ q ∈ splitChars (fun c => c = '/') (format_url_path_safely ['a', '/', '.', '.']),
      q ≠ [] ∧ q ≠ ['.'] ∧ q ≠ ['.', '.'] :=
  format_components_no_dots ['a', '/', '.', '.']
